import Mathlib

/-!
Shallow embedding of the espresso repository pieces that the specification
talks about:

* `src/espresso/criterions/cross_entropy_v2.py` — the sampled-logging
  state machine of `CrossEntropyV2Criterion.forward`;
* `src/examples/mobvoihotwords/local/create_decoding_graph.py` — the
  decoding-graph build pipeline `main`;
* `src/espresso/models/speech_transformer_encoder_model.py` — chunk-window
  computation at encoder construction, the chunked `forward`, beam-search
  `reorder_encoder_out`, and `update_state_prior`.

Python integers are modelled as `Int` and Python floor division `//` as
`Int.fdiv`.  Fallible code (Python `assert`, attribute lookup on an
`argparse.Namespace`, out-of-range tensor indexing) is modelled with
`Except`/`Option`.  Tensors are modelled as nested lists with the channel
dimension folded into an abstract element type, so the model is pure: a
forward call is a function of its inputs and has no effect besides its
return value.
-/

namespace CrossEntropyV2

/-- Python floor division `//` on arbitrary integers. -/
def pydiv (a b : Int) : Int := Int.fdiv a b

/-- The bucket-crossing test of `CrossEntropyV2Criterion.forward`:
`model.num_updates // self.print_interval > (model.num_updates - 1) // self.print_interval`. -/
def bucketCrossed (p n : Int) : Bool := pydiv (n - 1) p < pydiv n p

/-- The whole guard of the sampled-logging branch in
`CrossEntropyV2Criterion.forward` (the `hasattr(model, "num_updates")` part is
modelled as true, since the model under consideration always defines
`num_updates`): the model is training, a print-interval bucket boundary was
just crossed, and `num_updates` differs from `prev_num_updates`. -/
def shouldLog (p prev n : Int) (training : Bool) : Bool :=
  training && bucketCrossed p n && (n != prev)

/-- One criterion call: updates `prev_num_updates` exactly when a sample is
logged, and reports whether it was. -/
def stepLog (p prev n : Int) (training : Bool) : Int × Bool :=
  if shouldLog p prev n training then (n, true) else (prev, false)

/-- One criterion call together with its log event.  The sampled index is
drawn by `numpy_seed(model.num_updates); np.random.randint(0, len(sample["id"]))`,
so it is a function `rng` of the seed `num_updates` and of the batch size
only; `rng` abstracts the numpy generator. -/
def stepEvent (rng : Int → Nat → Nat) (p prev n : Int) (bsz : Nat)
    (training : Bool) : Int × Option (Int × Nat) :=
  if shouldLog p prev n training then (n, some (n, rng n bsz)) else (prev, none)

/-- Per-call log flags over a run of training-mode criterion calls,
threading `prev_num_updates` through. -/
def runFlags (p prev : Int) : List Int → List Bool
  | [] => []
  | n :: ns =>
    let s := stepLog p prev n true
    s.2 :: runFlags p s.1 ns

/-- The `num_updates` values at which a sample is logged over a run of
training-mode criterion calls. -/
def loggedValues (p prev : Int) : List Int → List Int
  | [] => []
  | n :: ns =>
    if shouldLog p prev n true then n :: loggedValues p n ns
    else loggedValues p prev ns

/-- Initial `prev_num_updates` sentinel set in `CrossEntropyV2Criterion.__init__`. -/
def prevInit : Int := -1

/-- `num_updates` of a freshly constructed `SpeechTransformerEncoderModel`. -/
def numUpdatesInit : Int := 0

end CrossEntropyV2

namespace CreateDecodingGraph

/-- Symbolic k2 FSA values, one constructor per k2 operation the script
`create_decoding_graph.py` uses.  `loaded path` stands for
`k2.Fsa.from_dict(torch.load(path))`; `fromOpenFst text acceptor` stands for
`k2.Fsa.from_openfst(text, acceptor=acceptor)`. -/
inductive Fsa where
  | loaded : String → Fsa
  | fromOpenFst : String → Bool → Fsa
  | arc_sort : Fsa → Fsa
  | intersect : Fsa → Fsa → Fsa
  | connect : Fsa → Fsa
  | invert : Fsa → Fsa
  | determinize : Fsa → Fsa
deriving DecidableEq

/-- Python errors the script can raise. -/
inductive PyError where
  | attributeError : PyError
  | assertionError : PyError
deriving DecidableEq

/-- The ambient file system and the `aux_labels` attribute of deserialized
FSA dicts, both external to the script. -/
structure Env where
  readFile : String → String
  auxLabels : String → Bool

/-- The `argparse.Namespace` produced for this script.  `get_parser` defines
destinations `HCL_inv_path`, `G_path` and `out_dir` only; `lm_fsa_path` is
`none` unless a caller injects that attribute by hand, since no flag of the
parser sets it. -/
structure Args where
  HCL_inv_path : String
  G_path : String
  out_dir : String
  lm_fsa_path : Option String

/-- Namespace produced by `get_parser().parse_args()` on a command line
giving the two required flags and `--out-dir`: the `lm_fsa_path` attribute
does not exist. -/
def parse_args (hcl g out : String) : Args := ⟨hcl, g, out, none⟩

/-- Default of the `--out-dir` flag. -/
def out_dir_default : String := "data"

/-- Python `s[-3:]`: the last three characters (the whole string when it is
shorter). -/
def suffix3 (s : String) : String := s.takeRight 3

/-- Whether `hasattr(fsa, "aux_labels")` holds for the two shapes of `G` the
script can build: a deserialized dict carries `aux_labels` as recorded by the
environment, and `from_openfst(..., acceptor=True)` never does. -/
def hasAuxLabels (env : Env) : Fsa → Bool
  | Fsa.loaded p => env.auxLabels p
  | Fsa.fromOpenFst _ acceptor => !acceptor
  | _ => false

/-- How `main` obtains `G` once the `lm_fsa_path` attribute exists: the
suffix test and the text read both use `lm_fsa_path`, while the binary branch
deserializes `G_path`, exactly as in the source. -/
def loadG (env : Env) (lm gpath : String) : Fsa :=
  if suffix3 lm = ".pt" then Fsa.loaded gpath
  else Fsa.fromOpenFst (env.readFile lm) true

/-- What a successful run of `main` produces: the final automaton, the path
handed to `torch.save`, and the message handed to `logger.info`. -/
structure BuildResult where
  HCLG : Fsa
  savePath : String
  logMsg : String
deriving DecidableEq

/-- The body of `main` in `create_decoding_graph.py`, step for step:
arc-sort the deserialized `HCL_inv`; read `args.lm_fsa_path` (an
`AttributeError` when the namespace lacks it); build `G`; assert `G` has no
`aux_labels`; arc-sort `G`; intersect, connect, invert, determinize, connect;
save to `out_dir/HCLG.pt` and log the path. -/
def main (env : Env) (args : Args) : Except PyError BuildResult :=
  let HCL_inv := Fsa.arc_sort (Fsa.loaded args.HCL_inv_path)
  match args.lm_fsa_path with
  | none => Except.error PyError.attributeError
  | some lm =>
    let G0 := loadG env lm args.G_path
    if hasAuxLabels env G0 then Except.error PyError.assertionError
    else
      let G := Fsa.arc_sort G0
      let HCLG := Fsa.connect (Fsa.determinize (Fsa.invert
        (Fsa.connect (Fsa.intersect G HCL_inv))))
      let savePath := args.out_dir ++ "/HCLG.pt"
      Except.ok ⟨HCLG, savePath, "saved the decoding graph as " ++ savePath⟩

/-- Environment for the C6 witness: every file reads as the empty string and
no deserialized dict carries `aux_labels`. -/
def demoEnv : Env := ⟨fun _ => "", fun _ => false⟩

/-- Namespace for the C6 witness, with the `lm_fsa_path` attribute injected
so that `main` can succeed. -/
def demoArgs : Args := ⟨"HCL_inv.pt", "G.fst.txt", "data", some "G.fst.txt"⟩

/-- The build result `main demoEnv demoArgs` evaluates to. -/
def demoBuild : BuildResult :=
  ⟨Fsa.connect (Fsa.determinize (Fsa.invert (Fsa.connect
      (Fsa.intersect (Fsa.arc_sort (Fsa.fromOpenFst "" true))
        (Fsa.arc_sort (Fsa.loaded "HCL_inv.pt")))))),
    "data/HCLG.pt", "saved the decoding graph as data/HCLG.pt"⟩

end CreateDecodingGraph

namespace SpeechEncoder

/-- Error raised by the `assert` statements in
`SpeechChunkTransformerEncoder.__init__`; the spec's error taxonomy names
this condition `InvalidConfiguration`. -/
inductive ConfigError where
  | invalidConfiguration : ConfigError
deriving DecidableEq

/-- Python ceiling division `(n + s - 1) // s` as used for per-layer
subsampled lengths. -/
def ceil_div (n s : Int) : Int := Int.fdiv (n + s - 1) s

/-- Modelled from the spec: `ConvBNReLU.output_lengths` (the convolutional
front end lives outside the provided sources) maps an input frame count
through one ceiling division per convolution time stride — the "monotonic,
determined by stride/padding arithmetic" mapping of the spec. -/
def conv_output_lengths (strides : List Int) (n : Int) : Int :=
  strides.foldl ceil_div n

/-- The front end is a list of convolutions, each with a time stride and a
time padding. -/
abbrev FrontEnd := List (Int × Int)

/-- `sum(conv.padding[0] for conv in conv_layers_before.convolutions)` from
`SpeechChunkTransformerEncoder.__init__`. -/
def receptive_field_radius (convs : FrontEnd) : Int :=
  (convs.map Prod.snd).sum

/-- Modelled from the spec: the encoder's `output_lengths` method (defined on
the base class outside the provided sources) is the front end's subsampling
map, or the identity when there is no convolutional front end. -/
def output_lengths (conv : Option FrontEnd) (n : Int) : Int :=
  match conv with
  | none => n
  | some convs => conv_output_lengths (convs.map Prod.fst) n

/-- The chunk-window state `SpeechChunkTransformerEncoder.__init__` computes
and freezes: `out_chunk_begin`, `out_chunk_end` (unset when `chunk_width` is
unset) and the `training_stage` flag. -/
structure EncoderCfg where
  out_chunk_begin : Int
  out_chunk_end : Option Int
  training_stage : Bool
deriving DecidableEq

/-- The first `assert` of `SpeechChunkTransformerEncoder.__init__`:
`chunk_width` is unset or positive. -/
def chunkWidthOk : Option Int → Bool
  | none => true
  | some w => decide (0 < w)

/-- The second `assert` of `SpeechChunkTransformerEncoder.__init__`: without
a front end the left context must be non-negative, with one it must be at
least the receptive-field radius. -/
def leftContextOk : Option FrontEnd → Int → Bool
  | none, clc => decide (0 ≤ clc)
  | some convs, clc => decide (receptive_field_radius convs ≤ clc)

/-- `SpeechChunkTransformerEncoder.__init__`: assert `chunk_width` is unset
or positive; assert the left context suffices; then freeze
`out_chunk_begin = output_lengths(chunk_left_context + 1) - 1` and
`out_chunk_end = output_lengths(chunk_left_context + chunk_width)` when
`chunk_width` is set. -/
def initChunkEncoder (conv : Option FrontEnd) (chunk_width : Option Int)
    (chunk_left_context : Int) (training_stage : Bool) :
    Except ConfigError EncoderCfg :=
  if chunkWidthOk chunk_width && leftContextOk conv chunk_left_context then
    Except.ok
      ⟨output_lengths conv (chunk_left_context + 1) - 1,
        chunk_width.map (fun w => output_lengths conv (chunk_left_context + w)),
        training_stage⟩
  else Except.error ConfigError.invalidConfiguration

/-- Python index clamping for a slice bound: negative indices count from the
end, and both ends clamp into `[0, len]`. -/
def pyBound (len : Nat) (i : Int) : Nat :=
  if i < 0 then (i + len).toNat else min i.toNat len

/-- Python slicing `l[b:e]` with step 1. -/
def pySlice (l : List α) (b e : Int) : List α :=
  (l.take (pyBound l.length e)).drop (pyBound l.length b)

/-- Matrix transpose, as `tensor.transpose(0, 1)` on a rectangular
two-dimensional tensor: the column count is read off the first row. -/
def transposeM (m : List (List α)) : List (List α) :=
  (List.range (m.headD []).length).map fun j => m.filterMap fun row => row[j]?

/-- Output of the wrapped `SpeechTransformerEncoder.forward`, as the chunked
`forward` consumes it: `encoder_out` is time-major (`T × B`, channels folded
into the element type), `encoder_padding_mask` is batch-major (`B × T`, the
wrapped encoder's native convention — `reorder_encoder_out` relies on the
mask's batch axis being axis 1 after the transpose in `forward`),
`src_lengths` has one entry per batch item, and the optional fields may be
absent. -/
structure BaseOut (α : Type) where
  encoder_out : List (List α)
  encoder_padding_mask : List (List Bool)
  encoder_embedding : Option (List α)
  encoder_states : List (List (List α))
  src_tokens : Option (List α)
  src_lengths : List Int

/-- The dictionary `SpeechChunkTransformerEncoder.forward` and
`reorder_encoder_out` trade in; an empty field list is modelled as `none`.
`encoder_out` and each entry of `encoder_states` are time-major (`T × B`);
`encoder_padding_mask` is the transposed mask (`T × B`);
`encoder_embedding`, `src_tokens` and `src_lengths` are batch-indexed. -/
structure EncoderOut (α : Type) where
  encoder_out : Option (List (List α))
  encoder_padding_mask : Option (List (List Bool))
  encoder_embedding : Option (List α)
  encoder_states : List (List (List α))
  src_tokens : Option (List α)
  src_lengths : Option (List Int)
deriving DecidableEq

/-- `SpeechChunkTransformerEncoder.forward` after the wrapped encoder has
produced `base`: slice `encoder_out` to `[out_chunk_begin, out_chunk_end)`
and overwrite every valid length with the slice width when a finite chunk
window is configured and the module is training or `training_stage` is
false; apply the optional `fc_out` projection `fc`; return the new output
dictionary with the padding mask transposed. -/
def chunkForward (cfg : EncoderCfg) (fc : Option (α → α)) (training : Bool)
    (base : BaseOut α) : EncoderOut α :=
  let sliced : List (List α) × List Int :=
    match cfg.out_chunk_end with
    | some e =>
      if training || !cfg.training_stage then
        let xs := pySlice base.encoder_out cfg.out_chunk_begin e
        (xs, List.replicate base.src_lengths.length (xs.length : Int))
      else (base.encoder_out, base.src_lengths)
    | none => (base.encoder_out, base.src_lengths)
  let x := match fc with
    | some f => sliced.1.map (List.map f)
    | none => sliced.1
  { encoder_out := some x,
    encoder_padding_mask := some (transposeM base.encoder_padding_mask),
    encoder_embedding := base.encoder_embedding,
    encoder_states := base.encoder_states,
    src_tokens := base.src_tokens,
    src_lengths := some sliced.2 }

/-- `tensor.index_select(0, order)`: pick the rows listed in `order`,
`none` on an out-of-range index (a runtime error in torch). -/
def selOpt (l : List α) : List Nat → Option (List α)
  | [] => some []
  | i :: is =>
    match l[i]?, selOpt l is with
    | some a, some as => some (a :: as)
    | _, _ => none

/-- `tensor.index_select(1, order)` on a two-dimensional tensor: select
within every row. -/
def sel1 (order : List Nat) : List (List α) → Option (List (List α))
  | [] => some []
  | row :: rs =>
    match selOpt row order, sel1 order rs with
    | some r, some rest => some (r :: rest)
    | _, _ => none

/-- Selection on an optional field: an absent field stays absent, exactly as
the `len(...) == 0` guards in `reorder_encoder_out` keep empty lists empty. -/
def selField0 (f : Option (List β)) (order : List Nat) : Option (Option (List β)) :=
  match f with
  | none => some none
  | some l => (selOpt l order).map some

/-- Batch-axis-1 selection on an optional two-dimensional field. -/
def selField1 (f : Option (List (List β))) (order : List Nat) :
    Option (Option (List (List β))) :=
  match f with
  | none => some none
  | some m => (sel1 order m).map some

/-- The loop over `encoder_states` in `reorder_encoder_out`: every
intermediate state is selected along its batch axis (axis 1). -/
def statesSel (order : List Nat) : List (List (List α)) → Option (List (List (List α)))
  | [] => some []
  | s :: ss =>
    match sel1 order s, statesSel order ss with
    | some t, some ts => some (t :: ts)
    | _, _ => none

/-- `SpeechChunkTransformerEncoder.reorder_encoder_out`: every populated
field is selected with the same `new_order` along its batch axis —
`encoder_out`, the (transposed) padding mask and every encoder state along
axis 1, `encoder_embedding`, `src_tokens` and `src_lengths` along axis 0. -/
def reorder_encoder_out (eo : EncoderOut α) (order : List Nat) :
    Option (EncoderOut α) := do
  let neo ← selField1 eo.encoder_out order
  let nmask ← selField1 eo.encoder_padding_mask order
  let nemb ← selField0 eo.encoder_embedding order
  let ntok ← selField0 eo.src_tokens order
  let nlen ← selField0 eo.src_lengths order
  let nstates ← statesSel order eo.encoder_states
  some ⟨neo, nmask, nemb, nstates, ntok, nlen⟩

/-- `SpeechTransformerEncoderModel.update_state_prior` over exact rationals:
assert the prior is set, smooth it with the new prior, renormalize by the
smoothed sum. -/
def update_state_prior (state_prior : Option (List ℚ)) (new_prior : List ℚ)
    (factor : ℚ) : Option (List ℚ) :=
  match state_prior with
  | none => none
  | some old =>
    let smoothed := List.zipWith (fun o n => (1 - factor) * o + factor * n) old new_prior
    some (smoothed.map (fun x => x / smoothed.sum))

/-- The exponential smoothing of two priors, named for reuse in statements. -/
def smooth (old new_prior : List ℚ) (factor : ℚ) : List ℚ :=
  List.zipWith (fun o n => (1 - factor) * o + factor * n) old new_prior

/-- Statement of claim C7's orientation clause, following the spec's words
rather than the source: the padding mask of the returned EncoderOutput is in
batch-major orientation, i.e. its outer axis has one entry per batch item. -/
def maskIsBatchMajor (eo : EncoderOut α) (batchSize : Nat) : Prop :=
  ∃ m, eo.encoder_padding_mask = some m ∧ m.length = batchSize

/-- Concrete base-encoder output over `Int` "channels": three time steps,
one batch item of valid length 3, mask `B × T = 1 × 3`. -/
def demoBase : BaseOut Int :=
  ⟨[[10], [20], [30]], [[false, true, false]], none, [], none, [3]⟩

/-- Chunk configuration for the C5 and C7 witnesses: window `[1, 2)`,
`training_stage = false`. -/
def demoCfg : EncoderCfg := ⟨1, some 2, false⟩

/-- Concrete forward output over `Int` channels with batch size 3: two time
steps of `encoder_out`, a `T × B = 1 × 3` transposed mask, lengths `[5, 6, 7]`,
embedding and tokens absent. -/
def demoEO : EncoderOut Int :=
  ⟨some [[1, 2, 3], [4, 5, 6]], some [[false, false, true]], none, [], none,
    some [5, 6, 7]⟩

/-- `reorder_encoder_out demoEO [2, 0, 0, 1]` spelled out: batch grows to 4
and positions 1 and 2 are copies of original index 0 in every populated
field. -/
def demoReordered : EncoderOut Int :=
  ⟨some [[3, 1, 1, 2], [6, 4, 4, 5]], some [[true, false, false, false]], none,
    [], none, some [7, 5, 5, 6]⟩

end SpeechEncoder

namespace CrossEntropyV2

lemma shouldLog_true_iff (p prev n : Int) :
    shouldLog p prev n true = true ↔ (pydiv (n - 1) p < pydiv n p ∧ n ≠ prev) := by
  simp [shouldLog, bucketCrossed, bne_iff_ne]

lemma loggedValues_sorted (p : Int) :
    ∀ (ns : List Int) (prev : Int), ns.Pairwise (· ≤ ·) → (∀ n ∈ ns, prev ≤ n) →
      (loggedValues p prev ns).Pairwise (· < ·) ∧
        ∀ v ∈ loggedValues p prev ns, prev < v := by
  intro ns
  induction ns with
  | nil => intro prev _ _; simp [loggedValues]
  | cons n ns ih =>
    intro prev hpw hall
    rw [List.pairwise_cons] at hpw
    by_cases hlog : shouldLog p prev n true = true
    · have hne : n ≠ prev := ((shouldLog_true_iff p prev n).mp hlog).2
      have hprevn : prev < n :=
        lt_of_le_of_ne (hall n (List.mem_cons_self n ns)) (Ne.symm hne)
      obtain ⟨htail, hgt⟩ := ih n hpw.2 hpw.1
      constructor
      · rw [loggedValues, if_pos hlog, List.pairwise_cons]
        exact ⟨hgt, htail⟩
      · intro v hv
        rw [loggedValues, if_pos hlog] at hv
        rcases List.mem_cons.mp hv with hv | hv
        · exact hv ▸ hprevn
        · exact lt_trans hprevn (hgt v hv)
    · have hlog' : shouldLog p prev n true = false := by
        simpa using hlog
      obtain ⟨htail, hgt⟩ := ih prev hpw.2
        (fun m hm => hall m (List.mem_cons_of_mem n hm))
      rw [loggedValues, if_neg (by simp [hlog'])]
      exact ⟨htail, hgt⟩

/-- Claim C2: over training-mode criterion calls, a sample is logged exactly
when the bucket-crossing test under Python floor division holds and
`num_updates` differs from the last logged value; the run
`499, 500, 500, 1000` with `print_interval = 500` logs exactly at `500` and
`1000`; over any run with non-decreasing, non-negative `num_updates` no value
is logged twice; and the sampled index of a log event is determined by
`num_updates` and the batch size alone, independent of criterion state. -/
theorem C2_sampled_logging_state_machine :
    (∀ p prev n : Int,
      shouldLog p prev n true = true ↔ (pydiv (n - 1) p < pydiv n p ∧ n ≠ prev)) ∧
    loggedValues 500 prevInit [499, 500, 500, 1000] = [500, 1000] ∧
    (∀ (p : Int) (ns : List Int), ns.Pairwise (· ≤ ·) → (∀ n ∈ ns, 0 ≤ n) →
      (loggedValues p prevInit ns).Nodup) ∧
    (∀ (rng : Int → Nat → Nat) (p q prev prev' n : Int) (bsz : Nat)
        (tr tr' : Bool) (e e' : Int × Nat),
      (stepEvent rng p prev n bsz tr).2 = some e →
      (stepEvent rng q prev' n bsz tr').2 = some e' → e = e') := by
  refine ⟨shouldLog_true_iff, by decide, ?_, ?_⟩
  · intro p ns hpw hnn
    have hall : ∀ n ∈ ns, prevInit ≤ n := by
      intro n hn
      have := hnn n hn
      simp only [prevInit]
      omega
    have h := (loggedValues_sorted p ns prevInit hpw hall).1
    exact h.imp ne_of_lt
  · intro rng p q prev prev' n bsz tr tr' e e' he he'
    unfold stepEvent at he he'
    by_cases h1 : shouldLog p prev n tr = true
    · by_cases h2 : shouldLog q prev' n tr' = true
      · rw [if_pos h1] at he
        rw [if_pos h2] at he'
        cases Option.some.inj he
        cases Option.some.inj he'
        rfl
      · rw [if_neg h2] at he'
        cases he'
    · rw [if_neg h1] at he
      cases he

/-- Witness for C2 at concrete inputs. -/
theorem C2_sampled_logging_state_machine_witness :
    loggedValues 500 prevInit [499, 500, 500, 1000] = [500, 1000] ∧
    (loggedValues 500 prevInit [0, 500, 500]).Nodup :=
  ⟨C2_sampled_logging_state_machine.2.1,
    C2_sampled_logging_state_machine.2.2.1 500 [0, 500, 500]
      (by decide) (by decide)⟩

/-- Claim C10: with the model freshly initialized (`num_updates = 0`) and the
criterion freshly initialized (`prev_num_updates = -1`), the very first
training-mode call logs a sample for every positive `print_interval`, because
`(0 - 1) // p = -1 < 0 = 0 // p` under floored integer division. -/
theorem C10_first_update_logs (p : Int) (hp : 0 < p) :
    pydiv (numUpdatesInit - 1) p = -1 ∧
      shouldLog p prevInit numUpdatesInit true = true := by
  have hediv : (-1 : Int) / p = -1 := by
    have hle : (-1 : Int) ≤ -1 / p := by
      rw [Int.le_ediv_iff_mul_le hp]
      omega
    have hlt : (-1 : Int) / p < 0 := Int.ediv_neg' (by omega) hp
    omega
  have hfd : pydiv (numUpdatesInit - 1) p = -1 := by
    show Int.fdiv (0 - 1) p = -1
    rw [Int.fdiv_eq_ediv _ (le_of_lt hp)]
    simpa using hediv
  refine ⟨hfd, ?_⟩
  rw [shouldLog_true_iff]
  refine ⟨?_, by simp [numUpdatesInit, prevInit]⟩
  rw [hfd]
  show (-1 : Int) < pydiv 0 p
  rw [pydiv, Int.zero_fdiv]
  omega

/-- Witness for C10 at the default print interval 500. -/
theorem C10_first_update_logs_witness :
    pydiv (numUpdatesInit - 1) 500 = -1 ∧
      shouldLog 500 prevInit numUpdatesInit true = true :=
  C10_first_update_logs 500 (by decide)

end CrossEntropyV2

namespace CreateDecodingGraph

/-- Claim C1 (code bug): every run of the builder on a namespace produced by
its own argument parser raises `AttributeError` before `G` is loaded, because
`main` reads `args.lm_fsa_path` for both the suffix test and the text-format
read while the parser only defines `G_path`; so `G` is never loaded from the
`--G-path` flag as the claim states. -/
theorem C1_cli_run_raises_attributeError (env : Env) (hcl g out : String) :
    main env (parse_args hcl g out) = Except.error PyError.attributeError := rfl

/-- Claim C6: every successful run of `main` computes the final graph as
connect-of-determinize-of-invert-of-connect-of-(intersection of the arc-sorted
`G` with the arc-sorted `HCL_inv`), saves it to `out_dir/HCLG.pt` and logs
that path. -/
theorem C6_pipeline_shape (env : Env) (args : Args) (r : BuildResult)
    (h : main env args = Except.ok r) :
    ∃ lm, args.lm_fsa_path = some lm ∧
      r.HCLG = Fsa.connect (Fsa.determinize (Fsa.invert (Fsa.connect
        (Fsa.intersect (Fsa.arc_sort (loadG env lm args.G_path))
          (Fsa.arc_sort (Fsa.loaded args.HCL_inv_path)))))) ∧
      r.savePath = args.out_dir ++ "/HCLG.pt" ∧
      r.logMsg = "saved the decoding graph as " ++ r.savePath := by
  unfold main at h
  cases hlm : args.lm_fsa_path with
  | none => rw [hlm] at h; cases h
  | some lm =>
    rw [hlm] at h
    dsimp only at h
    by_cases ha : hasAuxLabels env (loadG env lm args.G_path) = true
    · rw [if_pos ha] at h; cases h
    · rw [if_neg ha] at h
      cases Except.ok.inj h
      exact ⟨lm, rfl, rfl, rfl, rfl⟩

/-- Witness for C6 on a concrete successful run. -/
theorem C6_pipeline_shape_witness :
    ∃ lm, demoArgs.lm_fsa_path = some lm ∧
      demoBuild.HCLG = Fsa.connect (Fsa.determinize (Fsa.invert (Fsa.connect
        (Fsa.intersect (Fsa.arc_sort (loadG demoEnv lm demoArgs.G_path))
          (Fsa.arc_sort (Fsa.loaded demoArgs.HCL_inv_path)))))) ∧
      demoBuild.savePath = demoArgs.out_dir ++ "/HCLG.pt" ∧
      demoBuild.logMsg = "saved the decoding graph as " ++ demoBuild.savePath :=
  C6_pipeline_shape demoEnv demoArgs demoBuild rfl

end CreateDecodingGraph

namespace SpeechEncoder

lemma ceil_div_pos {n s : Int} (hs : 0 < s) (hn : 1 ≤ n) : 1 ≤ ceil_div n s := by
  rw [ceil_div, Int.fdiv_eq_ediv _ (le_of_lt hs), Int.le_ediv_iff_mul_le hs]
  omega

lemma ceil_div_mono {a b s : Int} (hs : 0 < s) (h : a ≤ b) :
    ceil_div a s ≤ ceil_div b s := by
  rw [ceil_div, ceil_div, Int.fdiv_eq_ediv _ (le_of_lt hs),
    Int.fdiv_eq_ediv _ (le_of_lt hs)]
  exact Int.ediv_le_ediv hs (by omega)

lemma conv_output_lengths_pos :
    ∀ (strides : List Int), (∀ s ∈ strides, 0 < s) →
      ∀ n : Int, 1 ≤ n → 1 ≤ conv_output_lengths strides n := by
  intro strides
  induction strides with
  | nil => intro _ n hn; simpa [conv_output_lengths] using hn
  | cons s ss ih =>
    intro hs n hn
    have h1 : 1 ≤ ceil_div n s :=
      ceil_div_pos (hs s (List.mem_cons_self s ss)) hn
    have := ih (fun t ht => hs t (List.mem_cons_of_mem s ht)) (ceil_div n s) h1
    simpa [conv_output_lengths, List.foldl_cons] using this

lemma conv_output_lengths_mono :
    ∀ (strides : List Int), (∀ s ∈ strides, 0 < s) →
      ∀ a b : Int, a ≤ b →
        conv_output_lengths strides a ≤ conv_output_lengths strides b := by
  intro strides
  induction strides with
  | nil => intro _ a b h; simpa [conv_output_lengths] using h
  | cons s ss ih =>
    intro hs a b h
    have h1 : ceil_div a s ≤ ceil_div b s :=
      ceil_div_mono (hs s (List.mem_cons_self s ss)) h
    have := ih (fun t ht => hs t (List.mem_cons_of_mem s ht)) _ _ h1
    simpa [conv_output_lengths, List.foldl_cons] using this

lemma output_lengths_pos (conv : Option FrontEnd)
    (hs : ∀ convs, conv = some convs → ∀ p ∈ convs, 0 < p.1)
    (n : Int) (hn : 1 ≤ n) : 1 ≤ output_lengths conv n := by
  cases conv with
  | none => simpa [output_lengths] using hn
  | some convs =>
    rw [output_lengths]
    refine conv_output_lengths_pos _ ?_ n hn
    intro s hsmem
    obtain ⟨p, hp, rfl⟩ := List.mem_map.mp hsmem
    exact hs convs rfl p hp

lemma output_lengths_mono (conv : Option FrontEnd)
    (hs : ∀ convs, conv = some convs → ∀ p ∈ convs, 0 < p.1)
    (a b : Int) (h : a ≤ b) : output_lengths conv a ≤ output_lengths conv b := by
  cases conv with
  | none => simpa [output_lengths] using h
  | some convs =>
    rw [output_lengths, output_lengths]
    refine conv_output_lengths_mono _ ?_ a b h
    intro s hsmem
    obtain ⟨p, hp, rfl⟩ := List.mem_map.mp hsmem
    exact hs convs rfl p hp

/-- Claim C3: for a convolutional front end with positive time strides and
non-negative paddings, any `chunk_left_context` at least the receptive-field
radius and any `chunk_width ≥ 1`, construction succeeds and the frozen window
satisfies `begin = output_lengths(c + 1) - 1 ≥ 0` and
`begin < end = output_lengths(c + w)`. -/
theorem C3_chunk_window_wellformed (convs : FrontEnd)
    (hstride : ∀ p ∈ convs, 0 < p.1) (hpad : ∀ p ∈ convs, 0 ≤ p.2)
    (c w : Int) (hc : receptive_field_radius convs ≤ c) (hw : 1 ≤ w)
    (ts : Bool) :
    ∃ cfg, initChunkEncoder (some convs) (some w) c ts = Except.ok cfg ∧
      cfg.out_chunk_begin = output_lengths (some convs) (c + 1) - 1 ∧
      cfg.out_chunk_end = some (output_lengths (some convs) (c + w)) ∧
      0 ≤ cfg.out_chunk_begin ∧
      ∀ e, cfg.out_chunk_end = some e → cfg.out_chunk_begin < e := by
  have hr : 0 ≤ receptive_field_radius convs := by
    rw [receptive_field_radius]
    refine List.sum_nonneg ?_
    intro x hx
    obtain ⟨p, hp, rfl⟩ := List.mem_map.mp hx
    exact hpad p hp
  have hc0 : 0 ≤ c := le_trans hr hc
  have hw' : 0 < w := by omega
  have hs : ∀ cs, (some convs : Option FrontEnd) = some cs → ∀ p ∈ cs, 0 < p.1 := by
    intro cs hcs
    cases Option.some.inj hcs
    exact hstride
  refine ⟨⟨output_lengths (some convs) (c + 1) - 1,
    some (output_lengths (some convs) (c + w)), ts⟩, ?_, rfl, rfl, ?_, ?_⟩
  · rw [initChunkEncoder,
      if_pos (by simp [chunkWidthOk, leftContextOk, hw', hc])]
    rfl
  · have h1 : 1 ≤ output_lengths (some convs) (c + 1) :=
      output_lengths_pos _ hs (c + 1) (by omega)
    simpa using h1
  · intro e he
    cases Option.some.inj he
    have h1 : 1 ≤ output_lengths (some convs) (c + 1) :=
      output_lengths_pos _ hs (c + 1) (by omega)
    have h2 : output_lengths (some convs) (c + 1) ≤ output_lengths (some convs) (c + w) :=
      output_lengths_mono _ hs (c + 1) (c + w) (by omega)
    simp only
    omega

/-- Witness for C3 with one stride-2, padding-1 convolution, left context 1,
chunk width 1. -/
theorem C3_chunk_window_wellformed_witness :
    ∃ cfg, initChunkEncoder (some [((2 : Int), (1 : Int))]) (some 1) 1 true
        = Except.ok cfg ∧
      cfg.out_chunk_begin = output_lengths (some [((2 : Int), (1 : Int))]) (1 + 1) - 1 ∧
      cfg.out_chunk_end = some (output_lengths (some [((2 : Int), (1 : Int))]) (1 + 1)) ∧
      0 ≤ cfg.out_chunk_begin ∧
      ∀ e, cfg.out_chunk_end = some e → cfg.out_chunk_begin < e :=
  C3_chunk_window_wellformed [((2 : Int), (1 : Int))] (by decide) (by decide)
    1 1 (by decide) (by decide) true

/-- Claim C8: constructing the chunk-aware encoder with `chunk_width` set to
zero or a negative value fails with the `InvalidConfiguration` error before
any forward call is possible, while construction with `chunk_width` unset or
positive succeeds whenever the left context suffices. -/
theorem C8_construction_validation :
    (∀ (conv : Option FrontEnd) (w c : Int) (ts : Bool), w ≤ 0 →
      initChunkEncoder conv (some w) c ts
        = Except.error ConfigError.invalidConfiguration) ∧
    (∀ (conv : Option FrontEnd) (c : Int) (ts : Bool),
      ((conv = none ∧ 0 ≤ c) ∨
        (∃ convs, conv = some convs ∧ receptive_field_radius convs ≤ c)) →
      ∃ cfg, initChunkEncoder conv none c ts = Except.ok cfg) ∧
    (∀ (conv : Option FrontEnd) (w c : Int) (ts : Bool), 0 < w →
      ((conv = none ∧ 0 ≤ c) ∨
        (∃ convs, conv = some convs ∧ receptive_field_radius convs ≤ c)) →
      ∃ cfg, initChunkEncoder conv (some w) c ts = Except.ok cfg) := by
  refine ⟨?_, ?_, ?_⟩
  · intro conv w c ts hw
    have : ¬ (0 < w) := by omega
    rw [initChunkEncoder, if_neg (by simp [chunkWidthOk, this])]
  · intro conv c ts hctx
    rcases hctx with ⟨rfl, hc⟩ | ⟨convs, rfl, hc⟩
    · refine ⟨⟨output_lengths none (c + 1) - 1, none, ts⟩, ?_⟩
      rw [initChunkEncoder, if_pos (by simp [chunkWidthOk, leftContextOk, hc])]
      rfl
    · refine ⟨⟨output_lengths (some convs) (c + 1) - 1, none, ts⟩, ?_⟩
      rw [initChunkEncoder, if_pos (by simp [chunkWidthOk, leftContextOk, hc])]
      rfl
  · intro conv w c ts hw hctx
    rcases hctx with ⟨rfl, hc⟩ | ⟨convs, rfl, hc⟩
    · refine ⟨⟨output_lengths none (c + 1) - 1,
        some (output_lengths none (c + w)), ts⟩, ?_⟩
      rw [initChunkEncoder,
        if_pos (by simp [chunkWidthOk, leftContextOk, hc, hw])]
      rfl
    · refine ⟨⟨output_lengths (some convs) (c + 1) - 1,
        some (output_lengths (some convs) (c + w)), ts⟩, ?_⟩
      rw [initChunkEncoder,
        if_pos (by simp [chunkWidthOk, leftContextOk, hc, hw])]
      rfl

/-- Witness for C8: width 0 is rejected; unset width and width 5 are
accepted. -/
theorem C8_construction_validation_witness :
    initChunkEncoder none (some 0) 0 true
        = Except.error ConfigError.invalidConfiguration ∧
    (∃ cfg, initChunkEncoder none none 0 true = Except.ok cfg) ∧
    (∃ cfg, initChunkEncoder (some [((2 : Int), (1 : Int))]) (some 5) 1 true
        = Except.ok cfg) :=
  ⟨C8_construction_validation.1 none 0 0 true (by decide),
    C8_construction_validation.2.1 none 0 true (Or.inl ⟨rfl, by decide⟩),
    C8_construction_validation.2.2 (some [((2 : Int), (1 : Int))]) 5 1 true
      (by decide) (Or.inr ⟨[((2 : Int), (1 : Int))], rfl, by decide⟩)⟩

/-- Claim C5: when a finite chunk window is configured and the module is
training or `training_stage` is false, the primary activation of the
returned output (with no output projection configured) is the wrapped
output sliced to `[out_chunk_begin, out_chunk_end)` along the time axis, and
every valid length is overwritten with the slice width; in every other case
neither the activation nor the lengths change. -/
theorem C5_chunk_forward_slices (α : Type) (cfg : EncoderCfg) (training : Bool)
    (base : BaseOut α) :
    (∀ e, cfg.out_chunk_end = some e →
      (training = true ∨ cfg.training_stage = false) →
      (chunkForward cfg none training base).encoder_out
          = some (pySlice base.encoder_out cfg.out_chunk_begin e) ∧
      (chunkForward cfg none training base).src_lengths
          = some (List.replicate base.src_lengths.length
              ((pySlice base.encoder_out cfg.out_chunk_begin e).length : Int))) ∧
    ((cfg.out_chunk_end = none ∨ (training = false ∧ cfg.training_stage = true)) →
      (chunkForward cfg none training base).encoder_out = some base.encoder_out ∧
      (chunkForward cfg none training base).src_lengths = some base.src_lengths) := by
  constructor
  · intro e he hmode
    have hcond : (training || !cfg.training_stage) = true := by
      rcases hmode with h | h <;> simp [h]
    rw [chunkForward, he]
    simp [hcond]
  · intro hmode
    rcases hmode with he | ⟨htr, hts⟩
    · rw [chunkForward, he]
      exact ⟨rfl, rfl⟩
    · have hcond : (training || !cfg.training_stage) = false := by
        simp [htr, hts]
      rw [chunkForward]
      cases hcfg : cfg.out_chunk_end with
      | none => exact ⟨rfl, rfl⟩
      | some e => simp [hcond]

/-- Witness for C5 on a concrete three-frame batch with window `[1, 2)`. -/
theorem C5_chunk_forward_slices_witness :
    (chunkForward demoCfg none true demoBase).encoder_out
        = some (pySlice demoBase.encoder_out demoCfg.out_chunk_begin 2) ∧
    (chunkForward demoCfg none true demoBase).src_lengths
        = some (List.replicate demoBase.src_lengths.length
            ((pySlice demoBase.encoder_out demoCfg.out_chunk_begin 2).length : Int)) :=
  (C5_chunk_forward_slices Int demoCfg true demoBase).1 2 rfl (Or.inl rfl)

lemma filterMap_getElem (t : Nat) :
    ∀ (m : List (List α)), (∀ row ∈ m, t < row.length) → ∀ b : Nat,
      (m.filterMap fun row => row[t]?)[b]? = m[b]?.bind fun row => row[t]? := by
  intro m
  induction m with
  | nil => intro _ b; simp
  | cons row rs ih =>
    intro h b
    have ht : t < row.length := h row (List.mem_cons_self row rs)
    have hrow : row[t]? = some row[t] := List.getElem?_eq_getElem ht
    cases b with
    | zero => simp [List.filterMap_cons, hrow]
    | succ b =>
      simp only [List.filterMap_cons, hrow, List.getElem?_cons_succ]
      exact ih (fun r hr => h r (List.mem_cons_of_mem row hr)) b

lemma transposeM_getElem (m : List (List α)) (T : Nat)
    (hrect : ∀ row ∈ m, row.length = T) (hne : m ≠ []) :
    (transposeM m).length = T ∧
    ∀ t b : Nat, t < T →
      ((transposeM m)[t]?.bind fun r => r[b]?)
        = (m[b]?.bind fun row => row[t]?) := by
  have hcols : (m.headD []).length = T := by
    cases m with
    | nil => exact absurd rfl hne
    | cons r rs => exact hrect r (List.mem_cons_self r rs)
  constructor
  · rw [transposeM, List.length_map, List.length_range]
    exact hcols
  · intro t b ht
    have h1 : (transposeM m)[t]? = some (m.filterMap fun row => row[t]?) := by
      rw [transposeM, List.getElem?_map,
        List.getElem?_range (by rw [hcols]; exact ht)]
      rfl
    rw [h1, Option.some_bind]
    exact filterMap_getElem t m
      (fun row hr => by rw [hrect row hr]; exact ht) b

/-- Claim C7 counterexample: for the wrapped output `demoBase` with one batch
item and three time frames (mask `B × T = 1 × 3`), the padding mask of the
returned EncoderOutput has three rows, not one — it is not in batch-major
orientation, so the claim's "transposed from time-major to batch-major"
direction is false on the code. -/
theorem C7_mask_orientation_counterexample :
    ¬ maskIsBatchMajor (chunkForward demoCfg (none : Option (Int → Int)) true demoBase)
        demoBase.src_lengths.length := by
  rintro ⟨m, hm, hlen⟩
  have hev : (chunkForward demoCfg (none : Option (Int → Int)) true demoBase).encoder_padding_mask
      = some [[false], [true], [false]] := rfl
  rw [hev] at hm
  cases Option.some.inj hm
  exact absurd hlen (by decide)

/-- Claim C7 as amended: the padding mask of the returned EncoderOutput is
the wrapped encoder's padding mask transposed — from the wrapped encoder's
batch-major orientation to time-major orientation: the outer axis of the
returned mask has one entry per time frame, and its entry `(t, b)` is the
wrapped mask's entry `(b, t)`.  The call is modelled as a pure function, so
it has no effect beyond the returned EncoderOutput. -/
theorem C7_mask_transposed_to_time_major (α : Type) (cfg : EncoderCfg)
    (fc : Option (α → α)) (training : Bool) (base : BaseOut α) (T : Nat)
    (hrect : ∀ row ∈ base.encoder_padding_mask, row.length = T)
    (hne : base.encoder_padding_mask ≠ []) :
    (chunkForward cfg fc training base).encoder_padding_mask
        = some (transposeM base.encoder_padding_mask) ∧
    (transposeM base.encoder_padding_mask).length = T ∧
    ∀ t b : Nat, t < T →
      ((transposeM base.encoder_padding_mask)[t]?.bind fun r => r[b]?)
        = (base.encoder_padding_mask[b]?.bind fun row => row[t]?) := by
  obtain ⟨hlen, hpt⟩ := transposeM_getElem base.encoder_padding_mask T hrect hne
  exact ⟨rfl, hlen, hpt⟩

/-- Witness for the amended C7 on `demoBase` (one batch item, three frames). -/
theorem C7_mask_transposed_to_time_major_witness :
    (chunkForward demoCfg (none : Option (Int → Int)) true demoBase).encoder_padding_mask
        = some (transposeM demoBase.encoder_padding_mask) ∧
    (transposeM demoBase.encoder_padding_mask).length = 3 ∧
    ∀ t b : Nat, t < 3 →
      ((transposeM demoBase.encoder_padding_mask)[t]?.bind fun r => r[b]?)
        = (demoBase.encoder_padding_mask[b]?.bind fun row => row[t]?) :=
  C7_mask_transposed_to_time_major Int demoCfg none true demoBase 3
    (by decide) (by decide)

lemma selOpt_eq_map [Inhabited α] (l : List α) :
    ∀ (order : List Nat), (∀ j ∈ order, j < l.length) →
      selOpt l order = some (order.map fun j => l.getD j default) := by
  intro order
  induction order with
  | nil => intro _; rfl
  | cons i is ih =>
    intro h
    have hi : i < l.length := h i (List.mem_cons_self i is)
    have h1 : l[i]? = some (l.getD i default) := by
      rw [List.getElem?_eq_getElem hi, List.getD_eq_getElem l default hi]
    rw [selOpt, h1, ih (fun j hj => h j (List.mem_cons_of_mem i hj))]
    simp

lemma sel1_eq_map [Inhabited α] (order : List Nat) :
    ∀ (m : List (List α)), (∀ row ∈ m, ∀ j ∈ order, j < row.length) →
      sel1 order m
        = some (m.map fun row => order.map fun j => row.getD j default) := by
  intro m
  induction m with
  | nil => intro _; rfl
  | cons row rs ih =>
    intro h
    rw [sel1, selOpt_eq_map row order (h row (List.mem_cons_self row rs)),
      ih (fun r hr => h r (List.mem_cons_of_mem row hr))]
    simp

lemma statesSel_eq_map [Inhabited α] (order : List Nat) :
    ∀ (ss : List (List (List α))),
      (∀ s ∈ ss, ∀ row ∈ s, ∀ j ∈ order, j < row.length) →
      statesSel order ss
        = some (ss.map fun s => s.map fun row =>
            order.map fun j => row.getD j default) := by
  intro ss
  induction ss with
  | nil => intro _; rfl
  | cons s rest ih =>
    intro h
    rw [statesSel, sel1_eq_map order s (h s (List.mem_cons_self s rest)),
      ih (fun u hu => h u (List.mem_cons_of_mem s hu))]
    simp

lemma selField0_eq [Inhabited β] (f : Option (List β)) (order : List Nat)
    (B : Nat) (horder : ∀ j ∈ order, j < B)
    (hf : ∀ l, f = some l → l.length = B) :
    selField0 f order
      = some (f.map fun l => order.map fun j => l.getD j default) := by
  cases f with
  | none => rfl
  | some l =>
    rw [selField0,
      selOpt_eq_map l order (fun j hj => by rw [hf l rfl]; exact horder j hj)]
    rfl

lemma selField1_eq [Inhabited β] (f : Option (List (List β))) (order : List Nat)
    (B : Nat) (horder : ∀ j ∈ order, j < B)
    (hf : ∀ m, f = some m → ∀ row ∈ m, row.length = B) :
    selField1 f order
      = some (f.map fun m => m.map fun row =>
          order.map fun j => row.getD j default) := by
  cases f with
  | none => rfl
  | some m =>
    rw [selField1,
      sel1_eq_map order m
        (fun row hr j hj => by rw [hf m rfl row hr]; exact horder j hj)]
    rfl

/-- Claim C4: reordering applies the same `new_order` selection to the batch
axis of every populated field simultaneously (position `i` of every output
field holds the data of input hypothesis `new_order[i]`), absent fields stay
absent, and for `new_order = [2, 0, 0, 1]` over the batch-3 output `demoEO`
the result has batch length 4 with positions 1 and 2 identical copies of
original index 0. -/
theorem C4_reorder_synchronized :
    (∀ (α : Type) [Inhabited α] (eo : EncoderOut α) (order : List Nat) (B : Nat),
      (∀ j ∈ order, j < B) →
      (∀ t, eo.encoder_out = some t → ∀ row ∈ t, row.length = B) →
      (∀ m, eo.encoder_padding_mask = some m → ∀ row ∈ m, row.length = B) →
      (∀ l, eo.encoder_embedding = some l → l.length = B) →
      (∀ l, eo.src_tokens = some l → l.length = B) →
      (∀ l, eo.src_lengths = some l → l.length = B) →
      (∀ s ∈ eo.encoder_states, ∀ row ∈ s, row.length = B) →
      reorder_encoder_out eo order = some
        { encoder_out := eo.encoder_out.map fun t => t.map fun row =>
            order.map fun j => row.getD j default,
          encoder_padding_mask := eo.encoder_padding_mask.map fun m =>
            m.map fun row => order.map fun j => row.getD j default,
          encoder_embedding := eo.encoder_embedding.map fun l =>
            order.map fun j => l.getD j default,
          encoder_states := eo.encoder_states.map fun s => s.map fun row =>
            order.map fun j => row.getD j default,
          src_tokens := eo.src_tokens.map fun l =>
            order.map fun j => l.getD j default,
          src_lengths := eo.src_lengths.map fun l =>
            order.map fun j => l.getD j default }) ∧
    (∀ (β : Type) [Inhabited β] (l : List β) (order : List Nat) (i : Nat),
      i < order.length →
      (order.map fun j => l.getD j default)[i]?
        = some (l.getD (order.getD i 0) default)) ∧
    reorder_encoder_out demoEO [2, 0, 0, 1] = some demoReordered ∧
    (∃ l, demoReordered.src_lengths = some l ∧ l.length = 4 ∧ l[1]? = l[2]?) ∧
    demoReordered.encoder_embedding = none ∧ demoReordered.src_tokens = none := by
  refine ⟨?_, ?_, rfl, ⟨[7, 5, 5, 6], rfl, rfl, rfl⟩, rfl, rfl⟩
  · intro α inst eo order B horder h1 h2 h3 h4 h5 h6
    rw [reorder_encoder_out, selField1_eq eo.encoder_out order B horder h1,
      selField1_eq eo.encoder_padding_mask order B horder h2,
      selField0_eq eo.encoder_embedding order B horder h3,
      selField0_eq eo.src_tokens order B horder h4,
      selField0_eq eo.src_lengths order B horder h5,
      statesSel_eq_map order eo.encoder_states
        (fun s hs row hr j hj => by rw [h6 s hs row hr]; exact horder j hj)]
    rfl
  · intro β inst l order i hi
    have hoi : order[i]? = some order[i] := List.getElem?_eq_getElem hi
    rw [List.getElem?_map, hoi, List.getD_eq_getElem order 0 hi]
    rfl

/-- Witness for C4 on `demoEO` with `new_order = [2, 0, 0, 1]`. -/
theorem C4_reorder_synchronized_witness :
    reorder_encoder_out demoEO [2, 0, 0, 1] = some
      { encoder_out := demoEO.encoder_out.map fun t => t.map fun row =>
          [2, 0, 0, 1].map fun j => row.getD j default,
        encoder_padding_mask := demoEO.encoder_padding_mask.map fun m =>
          m.map fun row => [2, 0, 0, 1].map fun j => row.getD j default,
        encoder_embedding := demoEO.encoder_embedding.map fun l =>
          [2, 0, 0, 1].map fun j => l.getD j default,
        encoder_states := demoEO.encoder_states.map fun s => s.map fun row =>
          [2, 0, 0, 1].map fun j => row.getD j default,
        src_tokens := demoEO.src_tokens.map fun l =>
          [2, 0, 0, 1].map fun j => l.getD j default,
        src_lengths := demoEO.src_lengths.map fun l =>
          [2, 0, 0, 1].map fun j => l.getD j default } :=
  C4_reorder_synchronized.1 Int demoEO [2, 0, 0, 1] 3 (by decide)
    (by intro t ht; cases Option.some.inj ht; decide)
    (by intro m hm; cases Option.some.inj hm; decide)
    (fun l hl => Option.noConfusion hl)
    (fun l hl => Option.noConfusion hl)
    (by intro l hl; cases Option.some.inj hl; decide)
    (by intro s hs; cases hs)

lemma sum_smooth (factor : ℚ) :
    ∀ (old new_prior : List ℚ), old.length = new_prior.length →
      (smooth old new_prior factor).sum
        = (1 - factor) * old.sum + factor * new_prior.sum := by
  intro old
  induction old with
  | nil =>
    intro new_prior h
    cases new_prior with
    | nil => simp [smooth]
    | cons n ns => simp at h
  | cons o os ih =>
    intro new_prior h
    cases new_prior with
    | nil => simp at h
    | cons n ns =>
      have h' : os.length = ns.length := by simpa using h
      have ht := ih ns h'
      simp only [smooth, List.zipWith_cons_cons, List.sum_cons] at ht ⊢
      rw [ht]
      ring

lemma sum_map_div (l : List ℚ) (s : ℚ) :
    (l.map fun x => x / s).sum = l.sum / s := by
  induction l with
  | nil => simp
  | cons a as ih =>
    simp only [List.map_cons, List.sum_cons, ih]
    rw [div_add_div_same]

/-- Claim C9: for a set state prior and a valid probability vector
`new_prior` with smoothing factor in `(0, 1)`, the updated prior is the
exponential smoothing `(1 - factor) * old + factor * new` divided by its own
sum, and it sums to exactly 1 over the rationals. -/
theorem C9_update_state_prior_normalized (old new_prior : List ℚ) (factor : ℚ)
    (hlen : old.length = new_prior.length)
    (hold : ∀ x ∈ old, 0 ≤ x) (hnew : ∀ x ∈ new_prior, 0 ≤ x)
    (holds : old.sum = 1) (hnews : new_prior.sum = 1)
    (hf0 : 0 < factor) (hf1 : factor < 1) :
    update_state_prior (some old) new_prior factor
        = some ((smooth old new_prior factor).map
            fun x => x / (smooth old new_prior factor).sum) ∧
    ∀ res, update_state_prior (some old) new_prior factor = some res →
      res.sum = 1 := by
  have hsum : (smooth old new_prior factor).sum = 1 := by
    rw [sum_smooth factor old new_prior hlen, holds, hnews]
    ring
  refine ⟨rfl, ?_⟩
  intro res hres
  have hr : res = (smooth old new_prior factor).map
      fun x => x / (smooth old new_prior factor).sum :=
    (Option.some.inj hres).symm
  rw [hr, sum_map_div, hsum]
  norm_num

/-- Witness for C9 with old prior `[1, 0]`, new prior `[0, 1]`, factor 1/2. -/
theorem C9_update_state_prior_normalized_witness :
    update_state_prior (some [1, 0]) [0, 1] (1 / 2)
        = some ((smooth [1, 0] [0, 1] (1 / 2)).map
            fun x => x / (smooth [1, 0] [0, 1] (1 / 2)).sum) ∧
    ∀ res, update_state_prior (some [1, 0]) [0, 1] (1 / 2) = some res →
      res.sum = 1 :=
  C9_update_state_prior_normalized [1, 0] [0, 1] (1 / 2) rfl
    (by simp) (by simp) (by simp) (by simp) one_half_pos one_half_lt_one

end SpeechEncoder
